import Mathlib

/-
  Verification of the sampling engine and output pipeline of a
  command-line random-distribution stream generator (src/main.rs).

  The shallow embedding follows the Rust source:
  * f64 values flowing through the post-processing loop are modelled by
    `FloatVal α` over a linear ordered field α: either a numeric value or
    NaN, with IEEE comparison semantics (every comparison with NaN is
    false) and NaN-absorbing addition.  Theorems are stated generically;
    concrete witnesses instantiate α := ℚ so they evaluate.
  * The stable-distribution engine (StableAlphaNotOne / StableAlphaOne)
    is modelled over ℝ, since its formulas use sin, cos, tan, atan, ln
    and real powers.
  * u64 counters are ℕ taken modulo 2^64 where the source wraps.
-/

/-- A double-precision value as it flows through the generation loop:
either an ordinary numeric value or NaN. -/
inductive FloatVal (α : Type) where
  | nan : FloatVal α
  | val : α → FloatVal α
deriving DecidableEq

/-- IEEE-style less-than on doubles: false whenever either side is NaN
(this is the semantics of the Rust f64 `<` operator used at lines
330 and 335 of the source). -/
def FloatVal.ltb {α : Type} [LinearOrder α] : FloatVal α → FloatVal α → Bool
  | FloatVal.val x, FloatVal.val y => decide (x < y)
  | _, _ => false

/-- Addition on doubles: NaN absorbs (models the `c += x` at line 340). -/
def FloatVal.add {α : Type} [Add α] : FloatVal α → FloatVal α → FloatVal α
  | FloatVal.val x, FloatVal.val y => FloatVal.val (x + y)
  | _, _ => FloatVal.nan

theorem FloatVal.zero_add {α : Type} [AddMonoid α] (x : FloatVal α) :
    FloatVal.add (FloatVal.val 0) x = x := by
  cases x <;> simp [FloatVal.add]

theorem FloatVal.add_nan {α : Type} [Add α] (x : FloatVal α) :
    FloatVal.add x FloatVal.nan = FloatVal.nan := by
  cases x <;> simp [FloatVal.add]

/-- The post-processing options of the generation loop (fields of the
`Opts` struct of the source that the loop body at lines 325-364 reads).
The optional exponentiation (line 327) is applied upstream of the values
fed to `step`, so it needs no field here. -/
structure Opts (α : Type) where
  cumulative : Bool
  discard_below : Option α
  discard_above : Option α

/-- The mutable state of the generation loop: accumulator `c` (line 317),
iteration counter (line 318, a wrapping u64), and the list of values
emitted so far (the writes at lines 341-361, kept abstract as the
pre-encoding values). -/
structure LoopState (α : Type) where
  c : FloatVal α
  counter : ℕ
  out : List (FloatVal α)

/-- Lines 329-333: the lower discard test `x < limit`. -/
def discardsBelow {α : Type} [LinearOrder α] (opts : Opts α) (x : FloatVal α) : Bool :=
  match opts.discard_below with
  | some limit => FloatVal.ltb x (FloatVal.val limit)
  | none => false

/-- Lines 334-338: the upper discard test `x > limit`. -/
def discardsAbove {α : Type} [LinearOrder α] (opts : Opts α) (x : FloatVal α) : Bool :=
  match opts.discard_above with
  | some limit => FloatVal.ltb (FloatVal.val limit) x
  | none => false

/-- A sample survives both discard filters. -/
def keeps {α : Type} [LinearOrder α] (opts : Opts α) (x : FloatVal α) : Bool :=
  !(discardsBelow opts x) && !(discardsAbove opts x)

/-- One iteration of the generation loop (lines 325-364) applied to the
post-exponentiation sample `x`: a discarded sample leaves the state
untouched (the `continue` at lines 331 and 336); otherwise `c += x`,
the new accumulator value is emitted, the accumulator is reset to zero
unless cumulative mode is on (line 363), and the wrapping u64 counter is
incremented (line 364). -/
def step {α : Type} [LinearOrder α] [Add α] [Zero α]
    (opts : Opts α) (x : FloatVal α) (st : LoopState α) : LoopState α :=
  if discardsBelow opts x then st
  else if discardsAbove opts x then st
  else
    let c := FloatVal.add st.c x
    { c := if opts.cumulative then c else FloatVal.val 0
      counter := (st.counter + 1) % 2 ^ 64
      out := st.out ++ [c] }

/-- The generation loop folded over a finite list of post-exponentiation
draws. -/
def runLoop {α : Type} [LinearOrder α] [Add α] [Zero α]
    (opts : Opts α) (xs : List (FloatVal α)) (st : LoopState α) : LoopState α :=
  xs.foldl (fun s x => step opts x s) st

/-- The loop state at entry (lines 317-318): zero accumulator, zero
counter, nothing emitted. -/
def initState {α : Type} [Zero α] : LoopState α :=
  { c := FloatVal.val 0, counter := 0, out := [] }

theorem step_discarded {α : Type} [LinearOrder α] [Add α] [Zero α]
    (opts : Opts α) (x : FloatVal α) (st : LoopState α)
    (h : keeps opts x = false) : step opts x st = st := by
  unfold step
  unfold keeps at h
  rcases Bool.and_eq_false_iff.mp h with h' | h'
  · rw [if_pos (by simpa using h')]
  · by_cases hb : discardsBelow opts x = true
    · rw [if_pos hb]
    · rw [if_neg (by simpa using hb), if_pos (by simpa using h')]

theorem step_kept {α : Type} [LinearOrder α] [Add α] [Zero α]
    (opts : Opts α) (x : FloatVal α) (st : LoopState α)
    (h : keeps opts x = true) :
    step opts x st =
      { c := if opts.cumulative then FloatVal.add st.c x else FloatVal.val 0
        counter := (st.counter + 1) % 2 ^ 64
        out := st.out ++ [FloatVal.add st.c x] } := by
  unfold keeps at h
  rw [Bool.and_eq_true, Bool.not_eq_true', Bool.not_eq_true'] at h
  unfold step
  rw [if_neg (by simp [h.1]), if_neg (by simp [h.2])]

/-- Written from the spec's words for the cumulative-mode claim: the list
of running sums of a list of samples, starting from accumulator `acc`. -/
def specRunningSums {α : Type} [Add α] (acc : FloatVal α) :
    List (FloatVal α) → List (FloatVal α)
  | [] => []
  | x :: rest => FloatVal.add acc x :: specRunningSums (FloatVal.add acc x) rest

theorem runLoop_out_cumulative {α : Type} [LinearOrder α] [Add α] [Zero α]
    (opts : Opts α) (h : opts.cumulative = true) :
    ∀ (xs : List (FloatVal α)) (st : LoopState α),
      (runLoop opts xs st).out =
        st.out ++ specRunningSums st.c (xs.filter (fun x => keeps opts x)) := by
  intro xs
  induction xs with
  | nil => intro st; simp [runLoop, specRunningSums]
  | cons x xs ih =>
    intro st
    by_cases hk : keeps opts x = true
    · have hstep := step_kept opts x st hk
      rw [h] at hstep
      simp only [runLoop, List.foldl_cons] at *
      rw [hstep, ih, List.filter_cons_of_pos hk]
      simp [specRunningSums]
    · have hk' : keeps opts x = false := by simpa using hk
      simp only [runLoop, List.foldl_cons] at *
      rw [step_discarded opts x st hk', ih, List.filter_cons_of_neg (by simpa using hk')]

theorem runLoop_out_noncumulative {α : Type} [LinearOrder α] [AddMonoid α]
    (opts : Opts α) (h : opts.cumulative = false) :
    ∀ (xs : List (FloatVal α)) (st : LoopState α), st.c = FloatVal.val 0 →
      (runLoop opts xs st).out = st.out ++ xs.filter (fun x => keeps opts x) := by
  intro xs
  induction xs with
  | nil => intro st _; simp [runLoop]
  | cons x xs ih =>
    intro st hc
    by_cases hk : keeps opts x = true
    · have hstep := step_kept opts x st hk
      rw [h] at hstep
      simp only [Bool.false_eq_true, if_false] at hstep
      simp only [runLoop, List.foldl_cons] at *
      rw [hstep, ih _ rfl, List.filter_cons_of_pos hk, hc, FloatVal.zero_add]
      simp
    · have hk' : keeps opts x = false := by simpa using hk
      simp only [runLoop, List.foldl_cons] at *
      rw [step_discarded opts x st hk', ih st hc,
        List.filter_cons_of_neg (by simpa using hk')]

/-- C5: a post-exponentiation sample below a configured lower bound, or
above a configured upper bound, is discarded: the loop iteration leaves
the state unchanged, so nothing is emitted, the iteration counter does
not advance toward the requested total, and the accumulator keeps its
value. -/
theorem C5_discarded_sample_leaves_state_unchanged {α : Type} [LinearOrder α] [AddMonoid α]
    (opts : Opts α) (v : α) (st : LoopState α)
    (h : (∃ L, opts.discard_below = some L ∧ v < L) ∨
         (∃ H, opts.discard_above = some H ∧ H < v)) :
    step opts (FloatVal.val v) st = st := by
  apply step_discarded
  rcases h with ⟨L, hL, hv⟩ | ⟨H, hH, hv⟩
  · simp [keeps, discardsBelow, hL, FloatVal.ltb, hv]
  · simp [keeps, discardsAbove, hH, FloatVal.ltb, hv]

theorem C5_discarded_sample_leaves_state_unchanged_witness :
    step (Opts.mk false (some 0) (some 10)) (FloatVal.val (-5 : ℚ)) initState = initState ∧
    step (Opts.mk false (some 0) (some 10)) (FloatVal.val (15 : ℚ)) initState = initState :=
  ⟨C5_discarded_sample_leaves_state_unchanged _ _ _ (Or.inl ⟨0, rfl, by decide⟩),
   C5_discarded_sample_leaves_state_unchanged _ _ _ (Or.inr ⟨10, rfl, by decide⟩)⟩

/-- C6: starting from the initial loop state, the emitted values are, in
cumulative mode, exactly the running sums of the post-exponentiation,
post-filter samples (so the k-th emitted value is the sum of the first k
kept samples), and with cumulative mode disabled, exactly the kept
samples themselves, the accumulator being reset to zero after every
emission. -/
theorem C6_emitted_values (α : Type) [LinearOrder α] [AddMonoid α]
    (opts : Opts α) (xs : List (FloatVal α)) :
    (runLoop opts xs initState).out =
      if opts.cumulative then
        specRunningSums (FloatVal.val 0) (xs.filter (fun x => keeps opts x))
      else xs.filter (fun x => keeps opts x) := by
  by_cases h : opts.cumulative = true
  · rw [if_pos h, runLoop_out_cumulative opts h xs initState]
    simp [initState]
  · have h' : opts.cumulative = false := by simpa using h
    rw [if_neg (by simp [h']), runLoop_out_noncumulative opts h' xs initState rfl]
    simp [initState]

/-- C10: a NaN sample passes both discard filters (both IEEE comparisons
are false for NaN), is emitted, and the emitted value is NaN, which is
not a numeric value inside [L, H]; so the filters do not guarantee that
every emitted value lies numerically within the bounds. -/
theorem C10_nan_sample_is_emitted {α : Type} [LinearOrder α] [AddMonoid α]
    (opts : Opts α) (L H : α) (st : LoopState α)
    (hL : opts.discard_below = some L) (hH : opts.discard_above = some H) :
    discardsBelow opts (FloatVal.nan : FloatVal α) = false ∧
    discardsAbove opts (FloatVal.nan : FloatVal α) = false ∧
    (step opts FloatVal.nan st).out = st.out ++ [FloatVal.nan] ∧
    ∀ z : α, L ≤ z → z ≤ H → (FloatVal.nan : FloatVal α) ≠ FloatVal.val z := by
  have h1 : discardsBelow opts (FloatVal.nan : FloatVal α) = false := by
    simp [discardsBelow, hL, FloatVal.ltb]
  have h2 : discardsAbove opts (FloatVal.nan : FloatVal α) = false := by
    simp [discardsAbove, hH, FloatVal.ltb]
  refine ⟨h1, h2, ?_, ?_⟩
  · simp [step, h1, h2, FloatVal.add_nan]
  · intro z _ _ hz
    exact FloatVal.noConfusion hz

theorem C10_nan_sample_is_emitted_witness :
    discardsBelow (Opts.mk false (some (0:ℚ)) (some 10)) (FloatVal.nan : FloatVal ℚ) = false ∧
    discardsAbove (Opts.mk false (some (0:ℚ)) (some 10)) (FloatVal.nan : FloatVal ℚ) = false ∧
    (step (Opts.mk false (some (0:ℚ)) (some 10)) FloatVal.nan initState).out =
      initState.out ++ [FloatVal.nan] :=
  ⟨(C10_nan_sample_is_emitted _ 0 10 initState rfl rfl).1,
   (C10_nan_sample_is_emitted _ 0 10 initState rfl rfl).2.1,
   (C10_nan_sample_is_emitted _ 0 10 initState rfl rfl).2.2.1⟩

/-- The eighteen binary output formats (the BinaryFormat enum of the
source, lines 10-29). -/
inductive BinaryFormat where
  | F32BE | F32LE | F64BE | F64LE
  | U8 | U16BE | U16LE | U32BE | U32LE | U64BE | U64LE
  | S8 | S16BE | S16LE | S32BE | S32LE | S64BE | S64LE
deriving DecidableEq

/-- The representable range of each integer binary format (none for the
four IEEE float formats).  These are the Rust u8/i8/.../u64/i64 ranges
the `as` casts at lines 347-360 saturate to. -/
def intBounds : BinaryFormat → Option (ℤ × ℤ)
  | BinaryFormat.U8 => some (0, 255)
  | BinaryFormat.S8 => some (-128, 127)
  | BinaryFormat.U16BE => some (0, 65535)
  | BinaryFormat.U16LE => some (0, 65535)
  | BinaryFormat.S16BE => some (-32768, 32767)
  | BinaryFormat.S16LE => some (-32768, 32767)
  | BinaryFormat.U32BE => some (0, 4294967295)
  | BinaryFormat.U32LE => some (0, 4294967295)
  | BinaryFormat.S32BE => some (-2147483648, 2147483647)
  | BinaryFormat.S32LE => some (-2147483648, 2147483647)
  | BinaryFormat.U64BE => some (0, 18446744073709551615)
  | BinaryFormat.U64LE => some (0, 18446744073709551615)
  | BinaryFormat.S64BE => some (-9223372036854775808, 9223372036854775807)
  | BinaryFormat.S64LE => some (-9223372036854775808, 9223372036854775807)
  | _ => none

/-- Rounding toward zero, the first stage of a Rust float-to-integer
`as` cast. -/
def truncTowardZero {α : Type} [LinearOrderedRing α] [FloorRing α] (v : α) : ℤ :=
  if 0 ≤ v then ⌊v⌋ else ⌈v⌉

/-- The Rust float-to-integer `as` cast used at lines 347-360: NaN goes
to 0; otherwise the value is rounded toward zero and clamped
(saturated) to the range [lo, hi] of the target type. -/
def castSat {α : Type} [LinearOrderedRing α] [FloorRing α]
    (lo hi : ℤ) : FloatVal α → ℤ
  | FloatVal.nan => 0
  | FloatVal.val v => max lo (min hi (truncTowardZero v))

theorem intBounds_le {fmt : BinaryFormat} {lo hi : ℤ}
    (h : intBounds fmt = some (lo, hi)) : lo ≤ hi := by
  cases fmt <;> simp [intBounds, Prod.ext_iff] at h <;> omega

/-- C7: for every value and every integer binary format, the encoded
conversion saturates: the result always lies in the target range, a
value whose truncation exceeds the range is clamped to the nearer
endpoint (never wrapped), and an in-range value converts exactly to its
truncation. -/
theorem C7_integer_cast_saturates {α : Type} [LinearOrderedRing α] [FloorRing α]
    (fmt : BinaryFormat) (lo hi : ℤ) (v : α)
    (h : intBounds fmt = some (lo, hi)) :
    lo ≤ castSat lo hi (FloatVal.val v) ∧
    castSat lo hi (FloatVal.val v) ≤ hi ∧
    (hi < truncTowardZero v → castSat lo hi (FloatVal.val v) = hi) ∧
    (truncTowardZero v < lo → castSat lo hi (FloatVal.val v) = lo) ∧
    (lo ≤ truncTowardZero v → truncTowardZero v ≤ hi →
      castSat lo hi (FloatVal.val v) = truncTowardZero v) := by
  have hlh : lo ≤ hi := intBounds_le h
  simp only [castSat]
  refine ⟨le_max_left _ _, ?_, ?_, ?_, ?_⟩ <;> omega

theorem C7_integer_cast_saturates_witness :
    castSat 0 255 (FloatVal.val (300 : ℚ)) = 255 ∧
    castSat 0 255 (FloatVal.val (1000 : ℚ)) = 255 ∧
    castSat 0 255 (FloatVal.val (-5 : ℚ)) = 0 ∧
    intBounds BinaryFormat.U8 = some (0, 255) ∧
    0 ≤ castSat 0 255 (FloatVal.val (300 : ℚ)) ∧
    castSat 0 255 (FloatVal.val (300 : ℚ)) ≤ 255 :=
  ⟨by decide, by decide, by decide, rfl,
   (C7_integer_cast_saturates BinaryFormat.U8 0 255 (300 : ℚ) rfl).1,
   (C7_integer_cast_saturates BinaryFormat.U8 0 255 (300 : ℚ) rfl).2.1⟩

/-- The seed actually used by the run (lines 311-315 of the source): the
caller-supplied seed when present, otherwise one taken from the
environment's entropy. -/
def mkRngSeed (seedOpt : Option ℕ) (entropy : ℕ) : ℕ :=
  match seedOpt with
  | some s => s
  | none => entropy

/-- The values emitted by a whole run, as a function of the
post-exponentiation draw stream produced by the PRNG from its seed.
The PRNG itself (rand's SmallRng) is an external library; it is
modelled as an arbitrary function `prng` from the seed to the finite
stream of draws consumed by the run. -/
def programOut {α : Type} [LinearOrder α] [AddMonoid α]
    (prng : ℕ → List (FloatVal α)) (opts : Opts α)
    (seedOpt : Option ℕ) (entropy : ℕ) : List (FloatVal α) :=
  (runLoop opts (prng (mkRngSeed seedOpt entropy)) initState).out

/-- C9: two runs with an identical caller-supplied seed, identical
post-processing options and the same PRNG (hence identical parameters
and sample count) emit identical value streams, whatever entropy the
two environments would otherwise have provided; since every downstream
encoder in this file is a pure function of this stream, the outputs are
byte-identical. -/
theorem C9_identical_seed_identical_output {α : Type} [LinearOrder α] [AddMonoid α]
    (prng : ℕ → List (FloatVal α)) (opts : Opts α) (s e1 e2 : ℕ) :
    programOut prng opts (some s) e1 = programOut prng opts (some s) e2 := rfl

/-- std::f64::consts::FRAC_PI_2 (line 3 of the source). -/
noncomputable def FRAC_PI_2 : ℝ := Real.pi / 2

/-- std::f64::consts::FRAC_2_PI (line 4 of the source). -/
noncomputable def FRAC_2_PI : ℝ := 2 / Real.pi

/-- f64::EPSILON, the machine epsilon 2^(-52) used in the uniform-draw
range at lines 218 and 254. -/
noncomputable def f64Epsilon : ℝ := (2 : ℝ) ^ (-52 : ℤ)

/-- The general-branch stable sampler (struct StableAlphaNotOne, lines
201-210).  The uniform draw distribution u_dist is represented by its
two bounds u_lo and u_hi; the unit-rate exponential w_dist needs no
parameters, its draws enter sampleAt as the positive input w. -/
structure StableAlphaNotOne where
  location : ℝ
  alpha : ℝ
  u_lo : ℝ
  u_hi : ℝ
  calc_scale : ℝ
  xi : ℝ
  alpha_inv : ℝ
  alpha2 : ℝ

/-- StableAlphaNotOne::new (lines 212-226). -/
noncomputable def StableAlphaNotOne.new
    (location scale alpha beta : ℝ) : StableAlphaNotOne :=
  let zeta := -beta * Real.tan (FRAC_PI_2 * alpha)
  { location := location
    alpha := alpha
    u_lo := -FRAC_PI_2 + 3 * f64Epsilon
    u_hi := FRAC_PI_2
    calc_scale := (zeta * zeta + 1) ^ (0.5 / alpha) * scale
    xi := Real.arctan (-zeta) / alpha
    alpha_inv := 1 / alpha
    alpha2 := (1 - alpha) / alpha }

/-- StableAlphaNotOne::sample (lines 230-237) as a function of the two
draws u (uniform) and w (unit-rate exponential). -/
noncomputable def StableAlphaNotOne.sampleAt
    (s : StableAlphaNotOne) (u w : ℝ) : ℝ :=
  let num1 := Real.sin (s.alpha * (u + s.xi))
  let den1 := Real.cos u ^ s.alpha_inv
  let num2 := Real.cos (u - s.alpha * (u + s.xi)) / w
  s.location + s.calc_scale * num1 / den1 * num2 ^ s.alpha2

/-- The near-1-branch stable sampler (struct StableAlphaOne, lines
240-246), with the draw distributions represented as above. -/
structure StableAlphaOne where
  location : ℝ
  beta : ℝ
  u_lo : ℝ
  u_hi : ℝ
  calc_scale : ℝ

/-- StableAlphaOne::new (lines 248-259). -/
noncomputable def StableAlphaOne.new (location scale beta : ℝ) : StableAlphaOne :=
  { location := location + FRAC_2_PI * beta * scale * Real.log scale
    beta := beta
    u_lo := -FRAC_PI_2 + 3 * f64Epsilon
    u_hi := FRAC_PI_2
    calc_scale := scale * FRAC_2_PI }

/-- StableAlphaOne::sample (lines 262-268) as a function of the draws. -/
noncomputable def StableAlphaOne.sampleAt (s : StableAlphaOne) (u w : ℝ) : ℝ :=
  s.location + s.calc_scale * ((FRAC_PI_2 + s.beta * u) * Real.tan u -
    s.beta * Real.log (FRAC_PI_2 * w * Real.cos u / (FRAC_PI_2 + s.beta * u)))

/-- Which of the two mutually exclusive stable samplers a run uses. -/
inductive StableSampler where
  | alphaOne : StableAlphaOne → StableSampler
  | alphaNotOne : StableAlphaNotOne → StableSampler

/-- Construction and validation of the stable sampler (lines 294-306 of
main): reject alpha outside [0,2] or beta outside [-1,1], then select
the near-1 branch exactly when 0.999 < alpha < 1.001. -/
noncomputable def stableConstruct
    (location scale alpha beta : ℝ) : Option StableSampler :=
  if alpha < 0 ∨ alpha > 2 then none
  else if beta < -1 ∨ beta > 1 then none
  else if alpha > 0.999 ∧ alpha < 1.001 then
    some (StableSampler.alphaOne (StableAlphaOne.new location scale beta))
  else
    some (StableSampler.alphaNotOne (StableAlphaNotOne.new location scale alpha beta))

def isAlphaOneBranch : StableSampler → Bool
  | StableSampler.alphaOne _ => true
  | StableSampler.alphaNotOne _ => false

/-- C8: construction of a stable sampler succeeds exactly when alpha
lies in [0,2] and beta in [-1,1], for any location and scale; outside
those ranges it fails, and no sampling happens before the check. -/
theorem C8_construction_validates_exactly (mu sigma alpha beta : ℝ) :
    (stableConstruct mu sigma alpha beta).isSome = true ↔
      (0 ≤ alpha ∧ alpha ≤ 2 ∧ -1 ≤ beta ∧ beta ≤ 1) := by
  unfold stableConstruct
  split_ifs with h1 h2 h3
  · simp only [Option.isSome_none, Bool.false_eq_true, false_iff]
    rintro ⟨ha, ha2, _, _⟩
    rcases h1 with h | h <;> linarith
  · simp only [Option.isSome_none, Bool.false_eq_true, false_iff]
    rintro ⟨_, _, hb, hb2⟩
    rcases h2 with h | h <;> linarith
  · push_neg at h1 h2
    simp only [Option.isSome_some, true_iff]
    exact ⟨h1.1, h1.2, h2.1, h2.2⟩
  · push_neg at h1 h2
    simp only [Option.isSome_some, true_iff]
    exact ⟨h1.1, h1.2, h2.1, h2.2⟩

/-- C3 (amended): for validated parameters the near-1 limiting algorithm
is selected exactly when 0.999 < alpha < 1.001, strictly: at the
boundary values alpha = 0.999 and alpha = 1.001 the general CMS
algorithm is selected; the two algorithms are mutually exclusive. -/
theorem C3_branch_selection_strict (mu sigma alpha beta : ℝ)
    (h1 : 0 ≤ alpha) (h2 : alpha ≤ 2) (h3 : -1 ≤ beta) (h4 : beta ≤ 1) :
    ((stableConstruct mu sigma alpha beta).map isAlphaOneBranch = some true ↔
      (0.999 < alpha ∧ alpha < 1.001)) ∧
    ((stableConstruct mu sigma alpha beta).map isAlphaOneBranch = some false ↔
      ¬ (0.999 < alpha ∧ alpha < 1.001)) := by
  unfold stableConstruct
  rw [if_neg (by push_neg; exact ⟨h1, h2⟩), if_neg (by push_neg; exact ⟨h3, h4⟩)]
  by_cases hb : 0.999 < alpha ∧ alpha < 1.001
  · rw [if_pos hb]
    simp [isAlphaOneBranch, hb]
  · rw [if_neg hb]
    simp [isAlphaOneBranch, hb]

theorem C3_branch_selection_strict_witness :
    (stableConstruct 0 1 1 0).map isAlphaOneBranch = some true ∧
    (stableConstruct 0 1 2 0).map isAlphaOneBranch = some false :=
  ⟨(C3_branch_selection_strict 0 1 1 0 (by norm_num) (by norm_num) (by norm_num)
      (by norm_num)).1.mpr (by norm_num),
   (C3_branch_selection_strict 0 1 2 0 (by norm_num) (by norm_num) (by norm_num)
      (by norm_num)).2.mpr (by norm_num)⟩

/-- C3 as stated is false: at the boundary values alpha = 0.999 and
alpha = 1.001, which the claim says select the near-1 limiting
algorithm, the code's strict comparisons select the general CMS
algorithm instead. -/
theorem C3_boundary_counterexample :
    (stableConstruct 0 1 0.999 0).map isAlphaOneBranch = some false ∧
    (stableConstruct 0 1 1.001 0).map isAlphaOneBranch = some false := by
  constructor <;>
  · unfold stableConstruct
    rw [if_neg (by norm_num), if_neg (by norm_num), if_neg (by norm_num)]
    rfl

/-- Written from the spec's words (section 4.3, case alpha not 1): the
precomputed CMS constants and the per-sample formula the claim states,
as properties of a sampler instance s.  zeta here is the spec's
-beta*tan(pi*alpha/2). -/
def specCMSGeneral (mu sigma alpha beta : ℝ) (s : StableAlphaNotOne) : Prop :=
  s.location = mu ∧
  s.calc_scale =
    sigma * ((-beta * Real.tan (Real.pi * alpha / 2)) ^ 2 + 1) ^ (1 / (2 * alpha)) ∧
  s.xi = Real.arctan (-(-beta * Real.tan (Real.pi * alpha / 2))) / alpha ∧
  s.alpha_inv = 1 / alpha ∧
  s.alpha2 = (1 - alpha) / alpha ∧
  ∀ u w : ℝ, -(Real.pi / 2) + 3 * f64Epsilon < u → u < Real.pi / 2 → 0 < w →
    s.sampleAt u w =
      mu + s.calc_scale * Real.sin (alpha * (u + s.xi)) / Real.cos u ^ s.alpha_inv *
        (Real.cos (u - alpha * (u + s.xi)) / w) ^ s.alpha2

/-- C1: an instance built by the general (alpha not near 1) branch of
construction has precisely the precomputed constants zeta, calc_scale,
xi, alpha_inv, alpha2 the spec states, and every sample computed from a
uniform draw u in (-pi/2 + 3 eps, pi/2) and an exponential draw w > 0
equals mu + calc_scale * sin(alpha(u+xi)) / cos(u)^alpha_inv *
(cos(u - alpha(u+xi)) / w)^alpha2. -/
theorem C1_general_branch_constants_and_formula (mu sigma alpha beta : ℝ)
    (s : StableAlphaNotOne)
    (h : stableConstruct mu sigma alpha beta = some (StableSampler.alphaNotOne s)) :
    specCMSGeneral mu sigma alpha beta s := by
  have hs : s = StableAlphaNotOne.new mu sigma alpha beta := by
    unfold stableConstruct at h
    split_ifs at h
    · simp at h
    · simp only [Option.some.injEq, StableSampler.alphaNotOne.injEq] at h
      exact h.symm
  subst hs
  have harg : FRAC_PI_2 * alpha = Real.pi * alpha / 2 := by
    unfold FRAC_PI_2; ring
  have hcs : (StableAlphaNotOne.new mu sigma alpha beta).calc_scale =
      sigma * ((-beta * Real.tan (Real.pi * alpha / 2)) ^ 2 + 1) ^ (1 / (2 * alpha)) := by
    show (-beta * Real.tan (FRAC_PI_2 * alpha) * (-beta * Real.tan (FRAC_PI_2 * alpha))
        + 1) ^ (0.5 / alpha) * sigma =
      sigma * ((-beta * Real.tan (Real.pi * alpha / 2)) ^ 2 + 1) ^ (1 / (2 * alpha))
    rw [harg]
    have hexp : (0.5 : ℝ) / alpha = 1 / (2 * alpha) := by
      rw [show (0.5 : ℝ) = 1 / 2 by norm_num, div_div]
    have hbase : -beta * Real.tan (Real.pi * alpha / 2) *
          (-beta * Real.tan (Real.pi * alpha / 2)) + 1 =
        (-beta * Real.tan (Real.pi * alpha / 2)) ^ 2 + 1 := by ring
    rw [hexp, hbase]
    exact mul_comm _ _
  have hxi : (StableAlphaNotOne.new mu sigma alpha beta).xi =
      Real.arctan (-(-beta * Real.tan (Real.pi * alpha / 2))) / alpha := by
    show Real.arctan (-(-beta * Real.tan (FRAC_PI_2 * alpha))) / alpha =
      Real.arctan (-(-beta * Real.tan (Real.pi * alpha / 2))) / alpha
    rw [harg]
  exact ⟨rfl, hcs, hxi, rfl, rfl, fun u w _ _ _ => rfl⟩

theorem C1_general_branch_constants_and_formula_witness :
    specCMSGeneral 0 1 2 0 (StableAlphaNotOne.new 0 1 2 0) :=
  C1_general_branch_constants_and_formula 0 1 2 0 _ (by
    unfold stableConstruct
    rw [if_neg (by norm_num), if_neg (by norm_num), if_neg (by norm_num)])

/-- Written from the spec's words (section 4.3, case alpha near 1): the
adjusted location, scale factor and per-sample formula the claim states,
as properties of a sampler instance s. -/
def specCMSAlphaOne (mu sigma beta : ℝ) (s : StableAlphaOne) : Prop :=
  s.location = mu + 2 / Real.pi * beta * sigma * Real.log sigma ∧
  s.calc_scale = sigma * (2 / Real.pi) ∧
  ∀ u w : ℝ, -(Real.pi / 2) + 3 * f64Epsilon < u → u < Real.pi / 2 → 0 < w →
    s.sampleAt u w =
      s.location + s.calc_scale * ((Real.pi / 2 + beta * u) * Real.tan u -
        beta * Real.log (Real.pi / 2 * w * Real.cos u / (Real.pi / 2 + beta * u)))

/-- C2: an instance built by the alpha-near-1 branch of construction has
the adjusted location mu + (2/pi)*beta*sigma*ln(sigma) and
calc_scale = sigma*(2/pi), and every sample computed from a uniform
draw u in (-pi/2 + 3 eps, pi/2) and an exponential draw w > 0 equals
location + calc_scale * ((pi/2 + beta*u)*tan(u) -
beta*ln((pi/2 * w * cos(u)) / (pi/2 + beta*u))). -/
theorem C2_alpha_one_branch_constants_and_formula (mu sigma alpha beta : ℝ)
    (s : StableAlphaOne)
    (h : stableConstruct mu sigma alpha beta = some (StableSampler.alphaOne s)) :
    specCMSAlphaOne mu sigma beta s := by
  have hs : s = StableAlphaOne.new mu sigma beta := by
    unfold stableConstruct at h
    split_ifs at h
    · simp only [Option.some.injEq, StableSampler.alphaOne.injEq] at h
      exact h.symm
    · simp at h
  subst hs
  exact ⟨rfl, rfl, fun u w _ _ _ => rfl⟩

theorem C2_alpha_one_branch_constants_and_formula_witness :
    specCMSAlphaOne 0 1 0 (StableAlphaOne.new 0 1 0) :=
  C2_alpha_one_branch_constants_and_formula 0 1 1 0 _ (by
    unfold stableConstruct
    rw [if_neg (by norm_num), if_neg (by norm_num), if_pos (by norm_num)])

/-- The divisors the general branch uses: alpha (in the four precomputed
constants at lines 220-223), the denominator cos(u)^alpha_inv (line
234), and w (line 235).  The branch performs no division by zero iff
all three are nonzero. -/
def notOneDivisorsNonzero (alpha u w : ℝ) : Prop :=
  alpha ≠ 0 ∧ Real.cos u ^ (1 / alpha) ≠ 0 ∧ w ≠ 0

/-- The near-1 branch's delicate operations: ln(scale) at construction
(line 252), the division by pi/2 + beta*u and the logarithm of the
resulting quotient (line 266).  They are well behaved iff scale is
positive, the divisor is nonzero, and the logarithm argument is
positive. -/
def alphaOneSafeOps (beta scale u w : ℝ) : Prop :=
  0 < scale ∧ FRAC_PI_2 + beta * u ≠ 0 ∧
    0 < FRAC_PI_2 * w * Real.cos u / (FRAC_PI_2 + beta * u)

/-- C4 (amended): for alpha in (0,2] (the accepted alpha = 0 is
excluded), beta in [-1,1] and positive scale, neither branch's formulas
divide by zero or take the logarithm of a non-positive number, given a
uniform draw in (-pi/2 + 3 eps, pi/2) and a positive exponential
draw. -/
theorem C4_no_div_by_zero_no_log_of_nonpos (alpha beta sigma u w : ℝ)
    (h1 : 0 < alpha) (h2 : alpha ≤ 2) (h3 : -1 ≤ beta) (h4 : beta ≤ 1)
    (h5 : 0 < sigma) (h6 : -FRAC_PI_2 + 3 * f64Epsilon < u) (h7 : u < FRAC_PI_2)
    (h8 : 0 < w) :
    notOneDivisorsNonzero alpha u w ∧ alphaOneSafeOps beta sigma u w := by
  have heps : 0 < f64Epsilon := by
    unfold f64Epsilon; positivity
  have hpi2 : FRAC_PI_2 = Real.pi / 2 := rfl
  rw [hpi2] at h6 h7
  have hu1 : -(Real.pi / 2) < u := by linarith
  have hcos : 0 < Real.cos u := Real.cos_pos_of_mem_Ioo ⟨hu1, h7⟩
  have hden : 0 < Real.pi / 2 + beta * u := by
    have habs : |beta * u| < Real.pi / 2 := by
      rw [abs_mul]
      calc |beta| * |u| ≤ 1 * |u| :=
            mul_le_mul_of_nonneg_right (abs_le.mpr ⟨h3, h4⟩) (abs_nonneg u)
        _ = |u| := one_mul _
        _ < Real.pi / 2 := abs_lt.mpr ⟨hu1, h7⟩
    have h9 := abs_lt.mp habs
    linarith [h9.1]
  refine ⟨⟨ne_of_gt h1, ?_, ne_of_gt h8⟩, h5, ?_, ?_⟩
  · exact ne_of_gt (Real.rpow_pos_of_pos hcos _)
  · show Real.pi / 2 + beta * u ≠ 0
    exact ne_of_gt hden
  · show 0 < Real.pi / 2 * w * Real.cos u / (Real.pi / 2 + beta * u)
    exact div_pos (mul_pos (mul_pos (by linarith [Real.pi_pos]) h8) hcos) hden

theorem C4_no_div_by_zero_no_log_of_nonpos_witness :
    notOneDivisorsNonzero 2 0 1 ∧ alphaOneSafeOps 0 1 0 1 :=
  C4_no_div_by_zero_no_log_of_nonpos 2 0 1 0 1 (by norm_num) (by norm_num)
    (by norm_num) (by norm_num) (by norm_num)
    (by
      unfold FRAC_PI_2 f64Epsilon
      have h := Real.pi_gt_three
      have he : (2 : ℝ) ^ (-52 : ℤ) ≤ 1 / 4 := by norm_num
      linarith)
    (by
      unfold FRAC_PI_2
      linarith [Real.pi_pos])
    (by norm_num)

/-- C4 as stated is false: alpha = 0 with beta = 0 is accepted at
construction and selects the general branch, the draws u = 0, w = 1 lie
in the guarded ranges, yet the branch's constants divide by alpha = 0;
independently, scale = -1 with alpha = 1 is accepted, selects the
near-1 branch, and takes ln of the non-positive scale. -/
theorem C4_accepted_params_counterexample :
    (stableConstruct 0 1 0 0).isSome = true ∧
    (stableConstruct 0 1 0 0).map isAlphaOneBranch = some false ∧
    (-FRAC_PI_2 + 3 * f64Epsilon < 0 ∧ (0 : ℝ) < FRAC_PI_2 ∧ (0 : ℝ) < 1) ∧
    ¬ notOneDivisorsNonzero 0 0 1 ∧
    (stableConstruct 0 (-1) 1 0).map isAlphaOneBranch = some true ∧
    ¬ alphaOneSafeOps 0 (-1) 0 1 := by
  refine ⟨?_, ?_, ⟨?_, ?_, by norm_num⟩, ?_, ?_, ?_⟩
  · unfold stableConstruct
    rw [if_neg (by norm_num), if_neg (by norm_num), if_neg (by norm_num)]
    rfl
  · unfold stableConstruct
    rw [if_neg (by norm_num), if_neg (by norm_num), if_neg (by norm_num)]
    rfl
  · unfold FRAC_PI_2 f64Epsilon
    have h := Real.pi_gt_three
    have he : (2 : ℝ) ^ (-52 : ℤ) ≤ 1 / 4 := by norm_num
    linarith
  · unfold FRAC_PI_2
    linarith [Real.pi_pos]
  · rintro ⟨ha, -, -⟩
    exact ha rfl
  · unfold stableConstruct
    rw [if_neg (by norm_num), if_neg (by norm_num), if_pos (by norm_num)]
    rfl
  · rintro ⟨ha, -, -⟩
    linarith
